/-
Verification of the AuthProxyWorkload reconcile controller
(internal/controller/authproxyworkload_controller.go).

The Go controller is shallowly embedded: pure helpers (replaceCondition,
findCondition, replaceStatus, newStatus) become Lean functions on lists;
the stateful reconcile loop becomes a function from an environment oracle
(supplying the outcomes of every external store call) to a result, an
optional error, a trace of the store operations it issued, and the updated
recently-deleted cache.  metav1.Time is modelled as a Nat where 0 is the
zero time; string-typed enumerations (condition status, reasons) stay
strings as in Go.
-/
import Mathlib

namespace controller

/-- types.NamespacedName from k8s apimachinery: a namespace/name key. -/
structure NamespacedName where
  Namespace : String
  Name : String
deriving DecidableEq, Repr

/-- metav1.Condition: type, status ("True"/"False"/"Unknown" as in Go,
where metav1.ConditionStatus is a string type), observed generation,
reason, message, and lastTransitionTime (Nat, 0 = the zero time, so
LastTransitionTime.IsZero() is `= 0`).  The field `Type` of the Go struct
is spelled Type_ because `Type` is reserved in Lean. -/
structure Condition where
  Type_ : String
  Status : String
  ObservedGeneration : Int
  Reason : String
  Message : String
  LastTransitionTime : Nat
deriving DecidableEq, Repr

/-- cloudsqlapi.WorkloadStatus: identity of a target workload plus its
conditions. -/
structure WorkloadStatus where
  Kind : String
  Version : String
  Namespace : String
  Name : String
  Conditions : List Condition
deriving DecidableEq, Repr

/-- workload.Workload as the controller uses it: only the identity read
through wl.Object() (kind, group-version identifier, namespace, name). -/
structure Workload where
  Kind : String
  Version : String
  Namespace : String
  Name : String
deriving DecidableEq, Repr

/-- cloudsqlapi.WorkloadSelectorSpec: the fields the controller reads
(Kind, optional Namespace override, optional explicit Name).  The label
selector itself is opaque to the embedding; its parse outcome is part of
the environment oracle. -/
structure WorkloadSelectorSpec where
  Kind : String
  Namespace : String
  Name : String
deriving DecidableEq, Repr

/-- AuthProxyWorkload.Status: resource-level conditions and per-workload
status entries. -/
structure AuthProxyWorkloadStatus where
  Conditions : List Condition
  WorkloadStatus : List WorkloadStatus
deriving DecidableEq, Repr

/-- The AuthProxyWorkload resource: metadata the controller reads
(namespace, name, generation, deletion timestamp with 0 = zero time,
finalizer list), the workload selector from its spec, and its status. -/
structure AuthProxyWorkload where
  Namespace : String
  Name : String
  Generation : Int
  DeletionTimestamp : Nat
  Finalizers : List String
  SpecWorkload : WorkloadSelectorSpec
  Status : AuthProxyWorkloadStatus
deriving DecidableEq, Repr

/-- Modelled from the spec: the finalizer token, a fixed string built in
Go from cloudsqlapi.AnnotationPrefix (the api package is outside the
provided slice); only its identity matters here. -/
def finalizerName : String := "cloudsql.cloud.google.com/AuthProxyWorkload-finalizer"

/-- Modelled from the spec: resource-level condition type `UpToDate`
(cloudsqlapi.ConditionUpToDate, api package outside the slice). -/
def ConditionUpToDate : String := "UpToDate"

/-- Modelled from the spec: per-target condition type `WorkloadUpToDate`
(cloudsqlapi.ConditionWorkloadUpToDate). -/
def ConditionWorkloadUpToDate : String := "WorkloadUpToDate"

/-- Modelled from the spec: reason code `UpToDate`
(cloudsqlapi.ReasonUpToDate). -/
def ReasonUpToDate : String := "UpToDate"

/-- Modelled from the spec: reason code `NoWorkloadsFound`
(cloudsqlapi.ReasonNoWorkloadsFound). -/
def ReasonNoWorkloadsFound : String := "NoWorkloadsFound"

/-- Modelled from the spec: reason code `FinishedReconcile`
(cloudsqlapi.ReasonFinishedReconcile). -/
def ReasonFinishedReconcile : String := "FinishedReconcile"

/-- metav1.ConditionTrue is the string "True". -/
def ConditionTrue : String := "True"

/-- ctrl.Result: requeue flag and requeue-after delay (seconds; 0 means
none). -/
structure CtrlResult where
  Requeue : Bool
  RequeueAfter : Nat
deriving DecidableEq, Repr

/-- `requeueNow = ctrl.Result{Requeue: true}`. -/
def requeueNow : CtrlResult := ⟨true, 0⟩

/-- `requeueWithDelay = ctrl.Result{Requeue: true, RequeueAfter: 30 * time.Second}`. -/
def requeueWithDelay : CtrlResult := ⟨true, 30⟩

/-- The zero ctrl.Result{}: no requeue. -/
def emptyResult : CtrlResult := ⟨false, 0⟩

/-- A store error: k8s not-found, or any other error with a message. -/
inductive StoreErr where
  | notFound
  | other (msg : String)
deriving DecidableEq, Repr

/-- errors.IsNotFound from k8s apimachinery. -/
def StoreErr.IsNotFound : StoreErr → Bool
  | .notFound => true
  | .other _ => false

/-- The message carried by a store error (error.Error() in Go). -/
def StoreErr.msg : StoreErr → String
  | .notFound => "not found"
  | .other m => m

/-- controllerutil.ContainsFinalizer. -/
def ContainsFinalizer (r : AuthProxyWorkload) (f : String) : Bool :=
  r.Finalizers.contains f

/-- controllerutil.RemoveFinalizer: removes every occurrence of the
token from the finalizer list. -/
def RemoveFinalizer (r : AuthProxyWorkload) (f : String) : AuthProxyWorkload :=
  { r with Finalizers := r.Finalizers.filter (fun x => x ≠ f) }

/-- controllerutil.AddFinalizer: appends the token if not present. -/
def AddFinalizer (r : AuthProxyWorkload) (f : String) : AuthProxyWorkload :=
  if r.Finalizers.contains f then r
  else { r with Finalizers := r.Finalizers ++ [f] }

/-- recentlyDeletedCache: a map from keys to booleans.  Modelled as an
association list where `set` prepends (shadowing older entries, the same
observable behaviour as overwriting a Go map entry) and `get` reads the
most recent entry, defaulting to false like a Go map read with !ok. -/
def RecentlyDeletedCache := List (NamespacedName × Bool)

/-- recentlyDeletedCache.set. -/
def RecentlyDeletedCache.set (c : RecentlyDeletedCache) (k : NamespacedName)
    (deleted : Bool) : RecentlyDeletedCache :=
  (k, deleted) :: c

/-- recentlyDeletedCache.get: the stored value, or false when absent. -/
def RecentlyDeletedCache.get (c : RecentlyDeletedCache) (k : NamespacedName) : Bool :=
  match c.find? (fun p => decide (p.1 = k)) with
  | some p => p.2
  | none => false

/-- findCondition: the first condition in the list with the given type,
or none (Go returns a nil pointer). -/
def findCondition : List Condition → String → Option Condition
  | [], _ => none
  | c :: rest, name => if c.Type_ = name then some c else findCondition rest name

/-- replaceCondition: walks the list; at the first condition with the
same type, the new condition keeps the stored lastTransitionTime when the
status is unchanged and the stored time is non-zero, otherwise it is
stamped with the current time, and it replaces the stored one in place
(return ends the loop).  When no condition of the type exists, the new
condition is stamped with the current time and appended.  `now` is the
value of time.Now(). -/
def replaceCondition (now : Nat) : List Condition → Condition → List Condition
  | [], newC => [{ newC with LastTransitionTime := now }]
  | c :: rest, newC =>
    if c.Type_ = newC.Type_ then
      (if c.Status = newC.Status ∧ c.LastTransitionTime ≠ 0 then
        { newC with LastTransitionTime := c.LastTransitionTime }
      else
        { newC with LastTransitionTime := now }) :: rest
    else
      c :: replaceCondition now rest newC

/-- The (kind, version, namespace, name) key of a workload status entry. -/
def wsKey (s : WorkloadStatus) : String × String × String × String :=
  (s.Kind, s.Version, s.Namespace, s.Name)

/-- The four-field match test of replaceStatus (name, namespace, kind and
version all equal). -/
def wsKeyEq (s u : WorkloadStatus) : Bool :=
  s.Name = u.Name ∧ s.Namespace = u.Namespace ∧ s.Kind = u.Kind ∧ s.Version = u.Version

/-- replaceStatus: the Go loop assigns `statuses[i] = updatedStatus` at
every index whose entry matches on name, namespace, kind and version,
and appends updatedStatus when no index matched. -/
def replaceStatus (statuses : List WorkloadStatus) (updatedStatus : WorkloadStatus) :
    List WorkloadStatus :=
  let replaced := statuses.map (fun s => if wsKeyEq s updatedStatus then updatedStatus else s)
  let updated := statuses.any (fun s => wsKeyEq s updatedStatus)
  if updated then replaced else replaced ++ [updatedStatus]

/-- newStatus: a WorkloadStatus carrying just the identity of a workload. -/
def newStatus (wl : Workload) : WorkloadStatus :=
  { Kind := wl.Kind, Version := wl.Version, Namespace := wl.Namespace,
    Name := wl.Name, Conditions := [] }

/-- A store operation issued by the reconciler through its client.  Get
and List are reads; Update and the status Patch are the mutating writes. -/
inductive Op where
  | getOp (key : NamespacedName)
  | listOp (ns : String)
  | updateOp (r : AuthProxyWorkload)
  | patchStatusOp (r : AuthProxyWorkload) (orig : AuthProxyWorkload)
deriving DecidableEq, Repr

/-- Whether an operation mutates the store. -/
def Op.isMutating : Op → Bool
  | .updateOp _ => true
  | .patchStatusOp _ _ => true
  | _ => false

/-- The number of mutating writes in a trace. -/
def mutWrites (tr : List Op) : Nat :=
  tr.countP Op.isMutating

/-- The environment oracle of one reconcile invocation: the outcome of
each external call the controller may make, in the order the code makes
them.  workloadForKind and workloadListForKind stand for the kind
registry of the workload package, labelsSelector for the label-selector
parse; each is ok or an error message.  `now` is the value time.Now()
yields when a condition is stamped. -/
structure Env where
  getResource : Except StoreErr AuthProxyWorkload
  workloadForKind : Except String Unit
  getWorkload : Except StoreErr Workload
  workloadListForKind : Except String Unit
  labelsSelector : Except String Unit
  listOutcome : Except String (List Workload)
  updateOutcome : Option String
  patchOutcome : Option String
  getAfterPatch : Option String
  now : Nat
deriving Repr

/-- Result of a workload-loading call: the returned list or error, and
the trace of store operations issued. -/
structure LoadOut where
  workloads : Except String (List Workload)
  trace : List Op
deriving Repr

/-- loadByName: resolve the kind through the registry (error is wrapped
and returned), then point-Get the named object; not-found yields an
empty list and no error, any other Get error is wrapped and returned. -/
def loadByName (env : Env) (sel : WorkloadSelectorSpec) (ns : String) : LoadOut :=
  let key : NamespacedName := ⟨ns, sel.Name⟩
  match env.workloadForKind with
  | .error e => ⟨.error ("unable to load by name " ++ key.Namespace ++ "/" ++ key.Name ++ ":  " ++ e), []⟩
  | .ok _ =>
    match env.getWorkload with
    | .ok wl => ⟨.ok [wl], [.getOp key]⟩
    | .error .notFound => ⟨.ok [], [.getOp key]⟩
    | .error (.other m) =>
      ⟨.error ("unable to load resource by name " ++ key.Namespace ++ "/" ++ key.Name ++ ":  " ++ m), [.getOp key]⟩

/-- loadByLabelSelector: parse the label selector, resolve the list kind
through the registry, then List in the namespace; every error is
propagated. -/
def loadByLabelSelector (env : Env) (_sel : WorkloadSelectorSpec) (ns : String) : LoadOut :=
  match env.labelsSelector with
  | .error e => ⟨.error e, []⟩
  | .ok _ =>
    match env.workloadListForKind with
    | .error e => ⟨.error e, []⟩
    | .ok _ =>
      match env.listOutcome with
      | .error e => ⟨.error e, [.listOp ns]⟩
      | .ok wls => ⟨.ok wls, [.listOp ns]⟩

/-- listWorkloads: the selector namespace overrides the resource
namespace when non-empty; a non-empty explicit name dispatches to the
point lookup, otherwise the label-selector list is used. -/
def listWorkloads (env : Env) (workloadSelector : WorkloadSelectorSpec) (ns : String) : LoadOut :=
  let ns := if workloadSelector.Namespace ≠ "" then workloadSelector.Namespace else ns
  if workloadSelector.Name ≠ "" then loadByName env workloadSelector ns
  else loadByLabelSelector env workloadSelector ns

/-- Result of updateWorkloadStatus: the matching workloads (or the list
error), the resource working copy after its status was updated in
memory, and the trace of store operations issued. -/
structure UpdateStatusOut where
  workloads : Except String (List Workload)
  resource : AuthProxyWorkload
  trace : List Op
deriving Repr

/-- The body of the updateWorkloadStatus loop for one matching workload:
build its status entry, upsert the WorkloadUpToDate=true condition into
it, and upsert the entry into the working copy's status (all in memory). -/
def markWorkload (env : Env) (res : AuthProxyWorkload) (wl : Workload) : AuthProxyWorkload :=
  let s := newStatus wl
  let newC : Condition :=
    { Type_ := ConditionWorkloadUpToDate, Status := ConditionTrue,
      ObservedGeneration := res.Generation, Reason := ReasonUpToDate,
      Message := "No update needed for this workload", LastTransitionTime := 0 }
  let s := { s with Conditions := replaceCondition env.now s.Conditions newC }
  { res with Status := { res.Status with
      WorkloadStatus := replaceStatus res.Status.WorkloadStatus s } }

/-- updateWorkloadStatus: list the matching workloads; on error return
it with the resource untouched.  Otherwise run the marking loop over the
matching workloads on the in-memory working copy. -/
def updateWorkloadStatus (env : Env) (resource : AuthProxyWorkload) : UpdateStatusOut :=
  match listWorkloads env resource.SpecWorkload resource.Namespace with
  | ⟨.error e, tr⟩ => ⟨.error e, resource, tr⟩
  | ⟨.ok matching, tr⟩ =>
    ⟨.ok matching, matching.foldl (markWorkload env) resource, tr⟩

/-- Result of one reconcile step: the ctrl.Result, the returned error
(none for nil), and the trace of store operations issued. -/
structure StepOut where
  result : CtrlResult
  err : Option String
  trace : List Op
deriving Repr

/-- patchAuthProxyWorkloadStatus: Patch the status subresource; on
success re-Get the resource into orig.  Returns the error and the trace. -/
def patchAuthProxyWorkloadStatus (env : Env) (resource : AuthProxyWorkload)
    (orig : AuthProxyWorkload) : Option String × List Op :=
  match env.patchOutcome with
  | some e => (some e, [.patchStatusOp resource orig])
  | none =>
    (env.getAfterPatch, [.patchStatusOp resource orig, .getOp ⟨resource.Namespace, resource.Name⟩])

/-- reconcileResult: upsert the UpToDate=true condition with the given
reason and message into the working copy and patch the status; errors
surface with an empty result, success returns the empty result. -/
def reconcileResult (env : Env) (resource : AuthProxyWorkload) (orig : AuthProxyWorkload)
    (reason message : String) : StepOut :=
  let newC : Condition :=
    { Type_ := ConditionUpToDate, Status := ConditionTrue,
      ObservedGeneration := resource.Generation, Reason := reason,
      Message := message, LastTransitionTime := 0 }
  let resource := { resource with Status := { resource.Status with
    Conditions := replaceCondition env.now resource.Status.Conditions newC } }
  match patchAuthProxyWorkloadStatus env resource orig with
  | (some e, tr) => ⟨emptyResult, some e, tr⟩
  | (none, tr) => ⟨emptyResult, none, tr⟩

/-- applyFinalizer: add the finalizer, Update, and requeue immediately,
surfacing any update error. -/
def applyFinalizer (env : Env) (resource : AuthProxyWorkload) : StepOut :=
  let resource := AddFinalizer resource finalizerName
  match env.updateOutcome with
  | some e => ⟨requeueNow, some e, [.updateOp resource]⟩
  | none => ⟨requeueNow, none, [.updateOp resource]⟩

/-- doDelete: recompute the workload status (on error, requeue now with
the error); then, when the finalizer is present, remove it and Update,
surfacing any update error with the empty result; finally the empty
result with no error. -/
def doDelete (env : Env) (resource : AuthProxyWorkload) : StepOut :=
  match updateWorkloadStatus env resource with
  | ⟨.error e, _, tr⟩ => ⟨requeueNow, some e, tr⟩
  | ⟨.ok _, resource, tr⟩ =>
    if ContainsFinalizer resource finalizerName then
      let resource := RemoveFinalizer resource finalizerName
      match env.updateOutcome with
      | some e => ⟨emptyResult, some e, tr ++ [.updateOp resource]⟩
      | none => ⟨emptyResult, none, tr ++ [.updateOp resource]⟩
    else
      ⟨emptyResult, none, tr⟩

/-- doCreateUpdate: state 1.1 adds the finalizer when absent; state 1.2
surfaces a workload-listing error with requeue-after-delay; state 2.1
(no matching workloads) and state 3.1 (some matching workloads) patch
the UpToDate=true condition through reconcileResult. -/
def doCreateUpdate (env : Env) (resource : AuthProxyWorkload) : StepOut :=
  let orig := resource
  if ¬ ContainsFinalizer resource finalizerName then
    applyFinalizer env resource
  else
    match updateWorkloadStatus env resource with
    | ⟨.error e, _, tr⟩ => ⟨requeueWithDelay, some e, tr⟩
    | ⟨.ok allWorkloads, resource, tr⟩ =>
      if allWorkloads.length = 0 then
        let out := reconcileResult env resource orig ReasonNoWorkloadsFound
          "No workload updates needed"
        ⟨out.result, out.err, tr ++ out.trace⟩
      else
        let message := "Reconciled " ++ toString allWorkloads.length ++ " matching workloads complete"
        let out := reconcileResult env resource orig ReasonFinishedReconcile message
        ⟨out.result, out.err, tr ++ out.trace⟩

/-- Result of one full Reconcile invocation: ctrl.Result, error, the
trace of store operations, and the updated recently-deleted cache. -/
structure ReconcileOut where
  result : CtrlResult
  err : Option String
  trace : List Op
  cache : RecentlyDeletedCache

/-- Reconcile: Get the resource for the request key.  On error, when the
key is recently deleted return quietly, otherwise surface the error with
requeue-after-delay.  When the deletion timestamp is set, record the key
as deleted and run doDelete; otherwise record it as live and run
doCreateUpdate. -/
def Reconcile (env : Env) (cache : RecentlyDeletedCache) (req : NamespacedName) : ReconcileOut :=
  match env.getResource with
  | .error e =>
    if cache.get req then
      ⟨emptyResult, none, [.getOp req], cache⟩
    else
      ⟨requeueWithDelay, some e.msg, [.getOp req], cache⟩
  | .ok resource =>
    if resource.DeletionTimestamp ≠ 0 then
      let cache := cache.set req true
      let out := doDelete env resource
      ⟨out.result, out.err, .getOp req :: out.trace, cache⟩
    else
      let cache := cache.set req false
      let out := doCreateUpdate env resource
      ⟨out.result, out.err, .getOp req :: out.trace, cache⟩

/-- A condition list whose types are pairwise distinct (the data-model
invariant: condition type is a unique key within a resource). -/
def uniqueTypes (conds : List Condition) : Prop :=
  conds.Pairwise (fun a b => a.Type_ ≠ b.Type_)

instance (conds : List Condition) : Decidable (uniqueTypes conds) := by
  unfold uniqueTypes
  infer_instance

/-- A workload-status list whose (kind, version, namespace, name) keys
are pairwise distinct (the data-model invariant). -/
def uniqueWsKeys (l : List WorkloadStatus) : Prop :=
  l.Pairwise (fun a b => wsKey a ≠ wsKey b)

instance (l : List WorkloadStatus) : Decidable (uniqueWsKeys l) := by
  unfold uniqueWsKeys
  infer_instance

/-- A stored condition with zero lastTransitionTime whose status equals
the incoming condition's status. -/
def c3Prior : Condition :=
  { Type_ := "UpToDate", Status := "True", ObservedGeneration := 1,
    Reason := "r1", Message := "m1", LastTransitionTime := 0 }

/-- An incoming condition differing from c3Prior only in reason and
message. -/
def c3New : Condition :=
  { Type_ := "UpToDate", Status := "True", ObservedGeneration := 1,
    Reason := "r2", Message := "m2", LastTransitionTime := 0 }

/-- A stored condition with a non-zero lastTransitionTime. -/
def c3Set : Condition :=
  { Type_ := "UpToDate", Status := "True", ObservedGeneration := 1,
    Reason := "r1", Message := "m1", LastTransitionTime := 7 }

/-- A stored condition of a type different from the incoming one. -/
def c9Other : Condition :=
  { Type_ := "Ready", Status := "False", ObservedGeneration := 2,
    Reason := "r3", Message := "m3", LastTransitionTime := 4 }

/-- A workload status entry. -/
def ws1 : WorkloadStatus :=
  { Kind := "Deployment", Version := "apps/v1", Namespace := "default",
    Name := "web", Conditions := [] }

/-- A workload status entry with a different key. -/
def ws2 : WorkloadStatus :=
  { Kind := "StatefulSet", Version := "apps/v1", Namespace := "default",
    Name := "db", Conditions := [] }

/-- An update for ws1's key with different conditions. -/
def ws1b : WorkloadStatus :=
  { Kind := "Deployment", Version := "apps/v1", Namespace := "default",
    Name := "web", Conditions := [c3Set] }

/-- An operation issued by the delete path is acceptable for claim C1:
not a status patch, and if an update then the written resource carries
no finalizer and has the original resource-level condition list. -/
def deleteOnlyOp (orig : AuthProxyWorkload) (op : Op) : Bool :=
  match op with
  | .patchStatusOp _ _ => false
  | .updateOp r2 => !(ContainsFinalizer r2 finalizerName) &&
      decide (r2.Status.Conditions = orig.Status.Conditions)
  | _ => true

/-- The name-selecting workload selector used by the concrete witnesses. -/
def selName : WorkloadSelectorSpec :=
  { Kind := "Deployment", Namespace := "", Name := "web" }

/-- A concrete target workload. -/
def wlWeb : Workload :=
  { Kind := "Deployment", Version := "apps/v1", Namespace := "default", Name := "web" }

/-- A concrete resource marked deleted, carrying the finalizer. -/
def resDel : AuthProxyWorkload :=
  { Namespace := "default", Name := "p", Generation := 2, DeletionTimestamp := 11,
    Finalizers := [finalizerName], SpecWorkload := selName,
    Status := { Conditions := [c3Set], WorkloadStatus := [] } }

/-- A concrete environment in which every external call succeeds. -/
def envDel : Env :=
  { getResource := .ok resDel, workloadForKind := .ok (), getWorkload := .ok wlWeb,
    workloadListForKind := .ok (), labelsSelector := .ok (),
    listOutcome := .ok [wlWeb], updateOutcome := none, patchOutcome := none,
    getAfterPatch := none, now := 5 }

/-- The request key of resDel. -/
def reqDel : NamespacedName := ⟨"default", "p"⟩

/-- An empty recently-deleted cache. -/
def cache0 : RecentlyDeletedCache := []

/-- The all-success environment, but the resource fetch returns
not-found. -/
def envNF : Env := { envDel with getResource := .error .notFound }

/-- A cache recording reqDel as recently deleted. -/
def cacheDel : RecentlyDeletedCache := [(reqDel, true)]

/-- The all-success environment, but the workload point Get returns
not-found. -/
def envNFW : Env := { envDel with getWorkload := .error .notFound }

/-! ### Theorems -/

/-- The first condition of the new condition's type after a replace:
the new condition, stamped with the stored time when the status is
unchanged and the stored time is non-zero, and with `now` otherwise. -/
theorem findCondition_replaceCondition_found (now : Nat) (conds : List Condition)
    (newC c : Condition) (hfind : findCondition conds newC.Type_ = some c) :
    findCondition (replaceCondition now conds newC) newC.Type_ =
      some { newC with LastTransitionTime :=
        if c.Status = newC.Status ∧ c.LastTransitionTime ≠ 0 then
          c.LastTransitionTime
        else now } := by
  induction conds with
  | nil => simp [findCondition] at hfind
  | cons c0 rest ih =>
    by_cases h : c0.Type_ = newC.Type_
    · simp only [findCondition, if_pos h, Option.some.injEq] at hfind
      subst hfind
      by_cases h2 : c0.Status = newC.Status ∧ c0.LastTransitionTime ≠ 0
      · simp [replaceCondition, h, h2, findCondition]
      · simp [replaceCondition, h, h2, findCondition]
    · simp only [findCondition, if_neg h] at hfind
      simp [replaceCondition, h, findCondition, ih hfind]

/-- Appending keeps the new condition stamped with `now` when the type
was absent. -/
theorem findCondition_replaceCondition_absent (now : Nat) (conds : List Condition)
    (newC : Condition) (hfind : findCondition conds newC.Type_ = none) :
    findCondition (replaceCondition now conds newC) newC.Type_ =
      some { newC with LastTransitionTime := now } := by
  induction conds with
  | nil => simp [findCondition, replaceCondition]
  | cons c0 rest ih =>
    by_cases h : c0.Type_ = newC.Type_
    · simp [findCondition, h] at hfind
    · simp only [findCondition, if_neg h] at hfind
      simp [replaceCondition, h, findCondition, ih hfind]

/-- Applying replaceCondition twice with the same condition is the same
as applying it once, provided the stamped current time is non-zero (as
time.Now() always is). -/
theorem replaceCondition_idem (now now2 : Nat) (conds : List Condition)
    (newC : Condition) (h : now ≠ 0) :
    replaceCondition now2 (replaceCondition now conds newC) newC =
      replaceCondition now conds newC := by
  induction conds with
  | nil => simp [replaceCondition, h]
  | cons c0 rest ih =>
    by_cases ht : c0.Type_ = newC.Type_
    · by_cases h2 : c0.Status = newC.Status ∧ c0.LastTransitionTime ≠ 0
      · simp [replaceCondition, ht, h2, h2.2]
      · simp [replaceCondition, ht, h2, h]
    · simp [replaceCondition, ht, ih]

/-- On a type-unique list, replaceCondition leaves exactly one condition
of the new condition's type. -/
theorem replaceCondition_countP (now : Nat) (conds : List Condition) (newC : Condition)
    (h : uniqueTypes conds) :
    (replaceCondition now conds newC).countP (fun c => decide (c.Type_ = newC.Type_)) = 1 := by
  induction conds with
  | nil => simp [replaceCondition, List.countP_cons]
  | cons c0 rest ih =>
    rw [uniqueTypes, List.pairwise_cons] at h
    by_cases ht : c0.Type_ = newC.Type_
    · have hrest : rest.countP (fun c => decide (c.Type_ = newC.Type_)) = 0 := by
        rw [List.countP_eq_zero]
        intro c hc
        have := h.1 c hc
        simp only [decide_eq_true_eq]
        rw [← ht]
        exact fun hcc => this hcc.symm
      by_cases h2 : c0.Status = newC.Status ∧ c0.LastTransitionTime ≠ 0
      · simp [replaceCondition, ht, h2, List.countP_cons, hrest]
      · simp [replaceCondition, ht, h2, List.countP_cons, hrest]
    · simp [replaceCondition, ht, List.countP_cons, ih h.2]

/-- Conditions of a different type keep their value and position. -/
theorem replaceCondition_getElem (now : Nat) (conds : List Condition) (newC : Condition)
    (i : Nat) (c : Condition) (hi : conds[i]? = some c) (hty : c.Type_ ≠ newC.Type_) :
    (replaceCondition now conds newC)[i]? = some c := by
  induction conds generalizing i with
  | nil => simp at hi
  | cons c0 rest ih =>
    by_cases ht : c0.Type_ = newC.Type_
    · match i with
      | 0 =>
        simp at hi
        subst hi
        exact absurd ht hty
      | i + 1 =>
        simp at hi
        by_cases h2 : c0.Status = newC.Status ∧ c0.LastTransitionTime ≠ 0
        · simpa [replaceCondition, ht, h2] using hi
        · simpa [replaceCondition, ht, h2] using hi
    · match i with
      | 0 =>
        simp at hi
        subst hi
        simp [replaceCondition, ht]
      | i + 1 =>
        simp at hi
        simpa [replaceCondition, ht] using ih i hi

/-- The result length: one more when the type was absent, unchanged
when it was present. -/
theorem replaceCondition_length (now : Nat) (conds : List Condition) (newC : Condition) :
    (replaceCondition now conds newC).length =
      if findCondition conds newC.Type_ = none then conds.length + 1
      else conds.length := by
  induction conds with
  | nil => simp [replaceCondition, findCondition]
  | cons c0 rest ih =>
    by_cases ht : c0.Type_ = newC.Type_
    · by_cases h2 : c0.Status = newC.Status ∧ c0.LastTransitionTime ≠ 0
      · simp [replaceCondition, ht, h2, findCondition]
      · simp [replaceCondition, ht, h2, findCondition]
    · simp only [replaceCondition, if_neg ht, findCondition, List.length_cons, ih]
      by_cases hf : findCondition rest newC.Type_ = none
      · simp [hf]
      · simp [hf]

/-- The four-field match test of replaceStatus is key equality. -/
theorem wsKeyEq_true_iff (s u : WorkloadStatus) :
    wsKeyEq s u = true ↔ wsKey s = wsKey u := by
  simp only [wsKeyEq, wsKey, Prod.ext_iff, decide_eq_true_eq]
  tauto

/-- The element written by the replace loop keeps the slot's key. -/
theorem wsKey_ite (s u : WorkloadStatus) :
    wsKey (if wsKeyEq s u then u else s) = wsKey s := by
  by_cases h : wsKeyEq s u = true
  · simp only [h, if_pos]
    exact ((wsKeyEq_true_iff s u).mp h).symm
  · simp [h]

/-- When no entry matches, the replace loop is the identity and the new
entry is appended at the end. -/
theorem replaceStatus_no_match (statuses : List WorkloadStatus) (u : WorkloadStatus)
    (h : ∀ s ∈ statuses, wsKeyEq s u = false) :
    replaceStatus statuses u = statuses ++ [u] := by
  have hmap : ∀ l : List WorkloadStatus, (∀ s ∈ l, wsKeyEq s u = false) →
      l.map (fun s => if wsKeyEq s u then u else s) = l := by
    intro l hl
    induction l with
    | nil => rfl
    | cons s rest ih =>
      simp only [List.map_cons, hl s (by simp)]
      rw [ih (fun x hx => hl x (by simp [hx]))]
      simp
  have hany : statuses.any (fun s => wsKeyEq s u) = false := by
    rw [List.any_eq_false]
    intro s hs
    simp [h s hs]
  simp [replaceStatus, hany, hmap statuses h]

/-- The new entry is always in the result. -/
theorem mem_replaceStatus (statuses : List WorkloadStatus) (u : WorkloadStatus) :
    u ∈ replaceStatus statuses u := by
  by_cases hany : statuses.any (fun s => wsKeyEq s u) = true
  · obtain ⟨s, hs, hsu⟩ := List.any_eq_true.mp hany
    simp only [replaceStatus, hany, if_pos]
    exact List.mem_map.mpr ⟨s, hs, by simp [hsu]⟩
  · simp [replaceStatus, hany]

/-- When some entry matches, the result keeps the input length (the
replacement is in place). -/
theorem replaceStatus_length_present (statuses : List WorkloadStatus) (u : WorkloadStatus)
    (h : statuses.any (fun s => wsKeyEq s u) = true) :
    (replaceStatus statuses u).length = statuses.length := by
  simp [replaceStatus, h]

/-- Entries with a different key pass through replaceStatus unchanged. -/
theorem replaceStatus_filter (statuses : List WorkloadStatus) (u : WorkloadStatus) :
    (replaceStatus statuses u).filter (fun s => ! decide (wsKey s = wsKey u)) =
      statuses.filter (fun s => ! decide (wsKey s = wsKey u)) := by
  have hmap : ∀ l : List WorkloadStatus,
      (l.map (fun s => if wsKeyEq s u then u else s)).filter
          (fun s => ! decide (wsKey s = wsKey u)) =
        l.filter (fun s => ! decide (wsKey s = wsKey u)) := by
    intro l
    induction l with
    | nil => rfl
    | cons s rest ih =>
      by_cases h : wsKeyEq s u = true
      · have hk := (wsKeyEq_true_iff s u).mp h
        simp [List.filter_cons, h, hk, ih]
      · have hk : ¬ wsKey s = wsKey u := fun hc => h ((wsKeyEq_true_iff s u).mpr hc)
        simp [List.filter_cons, h, hk, ih]
  by_cases hany : statuses.any (fun s => wsKeyEq s u) = true
  · simp only [replaceStatus, hany, if_pos]
    exact hmap statuses
  · simp only [replaceStatus, hany, if_neg, List.filter_append]
    simp
    exact hmap statuses

/-- replaceStatus preserves key uniqueness. -/
theorem replaceStatus_uniqueKeys (statuses : List WorkloadStatus) (u : WorkloadStatus)
    (h : uniqueWsKeys statuses) :
    uniqueWsKeys (replaceStatus statuses u) := by
  by_cases hany : statuses.any (fun s => wsKeyEq s u) = true
  · simp only [replaceStatus, hany, if_pos]
    unfold uniqueWsKeys at h ⊢
    exact h.map (fun s => if wsKeyEq s u then u else s)
      (fun a b hab => by simpa [wsKey_ite] using hab)
  · have h' : ∀ s ∈ statuses, wsKeyEq s u = false := by
      intro s hs
      have := List.any_eq_false.mp (Bool.of_not_eq_true hany) s hs
      simpa using this
    rw [replaceStatus_no_match statuses u h']
    unfold uniqueWsKeys at h ⊢
    rw [List.pairwise_append]
    refine ⟨h, List.pairwise_singleton _ _, ?_⟩
    intro a ha b hb hc
    simp only [List.mem_singleton] at hb
    rw [hb] at hc
    have := (wsKeyEq_true_iff a u).mpr hc
    rw [h' a ha] at this
    exact Bool.false_ne_true this

/-- Positional form of the replace loop: the slot at every input index
holds the new entry when the input entry there matched, and the input
entry itself otherwise — replacement happens in place, and the append
case leaves every original index untouched. -/
theorem replaceStatus_getElem (statuses : List WorkloadStatus) (u : WorkloadStatus)
    (i : Nat) (s : WorkloadStatus) (hi : statuses[i]? = some s) :
    (replaceStatus statuses u)[i]? = some (if wsKeyEq s u then u else s) := by
  have hlt : i < statuses.length := by
    by_contra hc
    rw [List.getElem?_eq_none (Nat.le_of_not_lt hc)] at hi
    exact Option.noConfusion hi
  by_cases hany : statuses.any (fun x => wsKeyEq x u) = true
  · simp only [replaceStatus, hany, if_pos]
    rw [List.getElem?_map, hi]
    rfl
  · simp only [replaceStatus, hany, Bool.false_eq_true, if_false]
    rw [List.getElem?_append_left (by simpa using hlt), List.getElem?_map, hi]
    rfl

/-- The slot one past the input list: empty when a key matched (the
in-place replacement keeps the length), and the new entry when none did
(the append puts it at the end). -/
theorem replaceStatus_getElem_last (statuses : List WorkloadStatus) (u : WorkloadStatus) :
    (replaceStatus statuses u)[statuses.length]? =
      (if statuses.any (fun s => wsKeyEq s u) then none else some u) := by
  by_cases hany : statuses.any (fun s => wsKeyEq s u) = true
  · rw [if_pos hany]
    simp only [replaceStatus, hany, if_pos]
    apply List.getElem?_eq_none
    simp
  · rw [if_neg hany]
    simp only [replaceStatus, hany, Bool.false_eq_true, if_false]
    rw [List.getElem?_append_right (by simp)]
    simp

/-- A non-mutating operation is neither an Update nor a status Patch. -/
theorem Op.not_write_of_not_mutating (op : Op) (h : op.isMutating = false) :
    (∀ a b, op ≠ Op.patchStatusOp a b) ∧ (∀ r, op ≠ Op.updateOp r) := by
  cases op <;> simp_all [Op.isMutating]

/-- Removing the finalizer really removes it. -/
theorem ContainsFinalizer_RemoveFinalizer (r : AuthProxyWorkload) (f : String) :
    ContainsFinalizer (RemoveFinalizer r f) f = false := by
  simp [ContainsFinalizer, RemoveFinalizer]

/-- RemoveFinalizer only touches the finalizer list. -/
theorem RemoveFinalizer_frame (r : AuthProxyWorkload) (f : String) :
    (RemoveFinalizer r f).Namespace = r.Namespace ∧
    (RemoveFinalizer r f).Name = r.Name ∧
    (RemoveFinalizer r f).Status = r.Status := by
  simp [RemoveFinalizer]

/-- The workload loaders only read: every operation they issue is a Get
or a List. -/
theorem loadByName_reads (env : Env) (sel : WorkloadSelectorSpec) (ns : String) :
    ∀ op ∈ (loadByName env sel ns).trace, op.isMutating = false := by
  unfold loadByName
  cases env.workloadForKind with
  | error e => simp
  | ok u =>
    cases hw : env.getWorkload with
    | ok wl => simp [Op.isMutating]
    | error e => cases e <;> simp [Op.isMutating]

/-- The label-selector loader only reads. -/
theorem loadByLabelSelector_reads (env : Env) (sel : WorkloadSelectorSpec) (ns : String) :
    ∀ op ∈ (loadByLabelSelector env sel ns).trace, op.isMutating = false := by
  unfold loadByLabelSelector
  cases env.labelsSelector with
  | error e => simp
  | ok u =>
    cases env.workloadListForKind with
    | error e => simp
    | ok u2 =>
      cases env.listOutcome with
      | error e => simp [Op.isMutating]
      | ok wls => simp [Op.isMutating]

/-- listWorkloads only reads. -/
theorem listWorkloads_reads (env : Env) (sel : WorkloadSelectorSpec) (ns : String) :
    ∀ op ∈ (listWorkloads env sel ns).trace, op.isMutating = false := by
  unfold listWorkloads
  by_cases h : sel.Name ≠ ""
  · simpa [h] using loadByName_reads env sel _
  · simpa [h] using loadByLabelSelector_reads env sel _

/-- updateWorkloadStatus only reads. -/
theorem updateWorkloadStatus_reads (env : Env) (resource : AuthProxyWorkload) :
    ∀ op ∈ (updateWorkloadStatus env resource).trace, op.isMutating = false := by
  have h := listWorkloads_reads env resource.SpecWorkload resource.Namespace
  unfold updateWorkloadStatus
  rcases hl : listWorkloads env resource.SpecWorkload resource.Namespace with ⟨w, tr⟩
  rw [hl] at h
  cases w with
  | error e => simpa using h
  | ok matching => simpa using h

/-- markWorkload only touches the per-workload status list. -/
theorem markWorkload_frame (env : Env) (res : AuthProxyWorkload) (wl : Workload) :
    (markWorkload env res wl).Namespace = res.Namespace ∧
    (markWorkload env res wl).Name = res.Name ∧
    (markWorkload env res wl).Generation = res.Generation ∧
    (markWorkload env res wl).DeletionTimestamp = res.DeletionTimestamp ∧
    (markWorkload env res wl).Finalizers = res.Finalizers ∧
    (markWorkload env res wl).SpecWorkload = res.SpecWorkload ∧
    (markWorkload env res wl).Status.Conditions = res.Status.Conditions := by
  simp [markWorkload]

/-- The marking loop only touches the per-workload status list. -/
theorem foldl_markWorkload_frame (env : Env) (wls : List Workload) :
    ∀ res : AuthProxyWorkload,
    (wls.foldl (markWorkload env) res).Namespace = res.Namespace ∧
    (wls.foldl (markWorkload env) res).Name = res.Name ∧
    (wls.foldl (markWorkload env) res).Generation = res.Generation ∧
    (wls.foldl (markWorkload env) res).DeletionTimestamp = res.DeletionTimestamp ∧
    (wls.foldl (markWorkload env) res).Finalizers = res.Finalizers ∧
    (wls.foldl (markWorkload env) res).SpecWorkload = res.SpecWorkload ∧
    (wls.foldl (markWorkload env) res).Status.Conditions = res.Status.Conditions := by
  induction wls with
  | nil => intro res; simp
  | cons wl rest ih =>
    intro res
    have h1 := markWorkload_frame env res wl
    have h2 := ih (markWorkload env res wl)
    simp only [List.foldl_cons]
    exact ⟨h2.1.trans h1.1, (h2.2.1).trans h1.2.1, (h2.2.2.1).trans h1.2.2.1,
      (h2.2.2.2.1).trans h1.2.2.2.1, (h2.2.2.2.2.1).trans h1.2.2.2.2.1,
      (h2.2.2.2.2.2.1).trans h1.2.2.2.2.2.1, (h2.2.2.2.2.2.2).trans h1.2.2.2.2.2.2⟩

/-- updateWorkloadStatus only mutates the in-memory working copy's
per-workload status list. -/
theorem updateWorkloadStatus_frame (env : Env) (resource : AuthProxyWorkload) :
    (updateWorkloadStatus env resource).resource.Namespace = resource.Namespace ∧
    (updateWorkloadStatus env resource).resource.Name = resource.Name ∧
    (updateWorkloadStatus env resource).resource.Generation = resource.Generation ∧
    (updateWorkloadStatus env resource).resource.DeletionTimestamp = resource.DeletionTimestamp ∧
    (updateWorkloadStatus env resource).resource.Finalizers = resource.Finalizers ∧
    (updateWorkloadStatus env resource).resource.SpecWorkload = resource.SpecWorkload ∧
    (updateWorkloadStatus env resource).resource.Status.Conditions =
      resource.Status.Conditions := by
  unfold updateWorkloadStatus
  rcases hl : listWorkloads env resource.SpecWorkload resource.Namespace with ⟨w, tr⟩
  cases w with
  | error e => simp
  | ok matching => simpa using foldl_markWorkload_frame env matching resource

/-- A trace of read operations has no mutating write. -/
theorem mutWrites_eq_zero (tr : List Op) (h : ∀ op ∈ tr, op.isMutating = false) :
    mutWrites tr = 0 := by
  rw [mutWrites, List.countP_eq_zero]
  intro op hop
  simp [h op hop]

/-- reconcileResult performs exactly one mutating write (the status
patch), on its success and on its error paths alike. -/
theorem reconcileResult_mutWrites (env : Env) (r o : AuthProxyWorkload)
    (reason message : String) :
    mutWrites (reconcileResult env r o reason message).trace = 1 := by
  unfold reconcileResult patchAuthProxyWorkloadStatus
  cases env.patchOutcome with
  | some e => simp [mutWrites, Op.isMutating, List.countP_cons]
  | none =>
    cases env.getAfterPatch with
    | some e => simp [mutWrites, Op.isMutating, List.countP_cons]
    | none => simp [mutWrites, Op.isMutating, List.countP_cons]

/-- applyFinalizer performs exactly one mutating write (the Update). -/
theorem applyFinalizer_mutWrites (env : Env) (r : AuthProxyWorkload) :
    mutWrites (applyFinalizer env r).trace = 1 := by
  unfold applyFinalizer
  cases env.updateOutcome with
  | some e => simp [mutWrites, Op.isMutating, List.countP_cons]
  | none => simp [mutWrites, Op.isMutating, List.countP_cons]

/-- doDelete performs at most one mutating write. -/
theorem doDelete_mutWrites (env : Env) (resource : AuthProxyWorkload) :
    mutWrites (doDelete env resource).trace ≤ 1 := by
  have h0 := mutWrites_eq_zero _ (updateWorkloadStatus_reads env resource)
  unfold doDelete
  rcases hu : updateWorkloadStatus env resource with ⟨w, res, tr⟩
  rw [hu] at h0
  dsimp only at h0 ⊢
  cases w with
  | error e => simp [h0]
  | ok wls =>
    by_cases hf : ContainsFinalizer res finalizerName = true
    · cases henv : env.updateOutcome with
      | some e =>
        simp only [hf, if_pos, henv]
        rw [mutWrites, List.countP_append, ← mutWrites, h0]
        simp [mutWrites, Op.isMutating, List.countP_cons]
      | none =>
        simp only [hf, if_pos, henv]
        rw [mutWrites, List.countP_append, ← mutWrites, h0]
        simp [mutWrites, Op.isMutating, List.countP_cons]
    · simp [hf, h0]

/-- doCreateUpdate performs at most one mutating write. -/
theorem doCreateUpdate_mutWrites (env : Env) (resource : AuthProxyWorkload) :
    mutWrites (doCreateUpdate env resource).trace ≤ 1 := by
  have h0 := mutWrites_eq_zero _ (updateWorkloadStatus_reads env resource)
  unfold doCreateUpdate
  by_cases hf : ContainsFinalizer resource finalizerName = true
  · rw [if_neg (by simp [hf])]
    rcases hu : updateWorkloadStatus env resource with ⟨w, res, tr⟩
    rw [hu] at h0
    dsimp only at h0 ⊢
    cases w with
    | error e => simp [h0]
    | ok wls =>
      dsimp only
      by_cases hlen : wls.length = 0
      · rw [if_pos hlen]
        dsimp only
        rw [mutWrites, List.countP_append, ← mutWrites, ← mutWrites, h0,
          reconcileResult_mutWrites]
      · rw [if_neg hlen]
        dsimp only
        rw [mutWrites, List.countP_append, ← mutWrites, ← mutWrites, h0,
          reconcileResult_mutWrites]
  · rw [if_pos hf]
    exact Nat.le_of_eq (applyFinalizer_mutWrites env resource)

/-- An operation issued by the delete path is never a status patch, and
any update it issues writes a resource without the finalizer and with
the resource-level conditions untouched. -/
theorem doDelete_trace_ops (env : Env) (resource : AuthProxyWorkload) :
    ∀ op ∈ (doDelete env resource).trace,
      (∀ a b, op ≠ Op.patchStatusOp a b) ∧
      (∀ r2, op = Op.updateOp r2 →
        ContainsFinalizer r2 finalizerName = false ∧
        r2.Status.Conditions = resource.Status.Conditions) := by
  have hreads := updateWorkloadStatus_reads env resource
  have hframe := updateWorkloadStatus_frame env resource
  unfold doDelete
  rcases hu : updateWorkloadStatus env resource with ⟨w, res, tr⟩
  rw [hu] at hreads hframe
  dsimp only at hreads hframe ⊢
  cases w with
  | error e =>
    intro op hop
    have h := Op.not_write_of_not_mutating op (hreads op hop)
    exact ⟨h.1, fun r2 hr2 => absurd hr2 (h.2 r2)⟩
  | ok wls =>
    dsimp only
    by_cases hf : ContainsFinalizer res finalizerName = true
    · rw [if_pos hf]
      cases henv : env.updateOutcome with
      | some e =>
        intro op hop
        dsimp only at hop
        rcases List.mem_append.mp hop with h | h
        · have h2 := Op.not_write_of_not_mutating op (hreads op h)
          exact ⟨h2.1, fun r2 hr2 => absurd hr2 (h2.2 r2)⟩
        · simp only [List.mem_singleton] at h
          subst h
          refine ⟨by simp, fun r2 hr2 => ?_⟩
          simp only [Op.updateOp.injEq] at hr2
          rw [← hr2]
          refine ⟨ContainsFinalizer_RemoveFinalizer res finalizerName, ?_⟩
          rw [(RemoveFinalizer_frame res finalizerName).2.2]
          exact hframe.2.2.2.2.2.2
      | none =>
        intro op hop
        dsimp only at hop
        rcases List.mem_append.mp hop with h | h
        · have h2 := Op.not_write_of_not_mutating op (hreads op h)
          exact ⟨h2.1, fun r2 hr2 => absurd hr2 (h2.2 r2)⟩
        · simp only [List.mem_singleton] at h
          subst h
          refine ⟨by simp, fun r2 hr2 => ?_⟩
          simp only [Op.updateOp.injEq] at hr2
          rw [← hr2]
          refine ⟨ContainsFinalizer_RemoveFinalizer res finalizerName, ?_⟩
          rw [(RemoveFinalizer_frame res finalizerName).2.2]
          exact hframe.2.2.2.2.2.2
    · rw [if_neg hf]
      intro op hop
      have h := Op.not_write_of_not_mutating op (hreads op hop)
      exact ⟨h.1, fun r2 hr2 => absurd hr2 (h.2 r2)⟩

/-- C3 counterexample: replaceCondition can change the stored
lastTransitionTime even though the status did not change.  With a prior
condition of the same type and same status but zero stored
lastTransitionTime, a reason/message-only edit at time 5 re-stamps the
stored time from 0 to 5, refuting "changes iff status differs". -/
theorem C3_counterexample :
    c3Prior.Status = c3New.Status ∧
    findCondition [c3Prior] c3New.Type_ = some c3Prior ∧
    (findCondition (replaceCondition 5 [c3Prior] c3New) c3New.Type_).map
      Condition.LastTransitionTime = some 5 ∧
    c3Prior.LastTransitionTime ≠ 5 := by
  refine ⟨rfl, by decide, by decide, by decide⟩

/-- C3 (amended): for a condition type already present, replaceCondition
keeps the stored lastTransitionTime exactly when the status is unchanged
AND the stored lastTransitionTime is non-zero; otherwise (status change,
or unset stored time) it stamps the current time.  In particular
reason/message-only edits keep the time whenever the stored time was
already set. -/
theorem C3_lastTransitionTime (now : Nat) (conds : List Condition) (newC c : Condition)
    (hfind : findCondition conds newC.Type_ = some c) :
    findCondition (replaceCondition now conds newC) newC.Type_ =
      some { newC with LastTransitionTime :=
        if c.Status = newC.Status ∧ c.LastTransitionTime ≠ 0 then
          c.LastTransitionTime
        else now } :=
  findCondition_replaceCondition_found now conds newC c hfind

/-- C3 witness: a reason/message-only edit on a stored condition with
time 7 keeps time 7 rather than stamping time 9. -/
theorem C3_witness :
    findCondition [c3Set] c3New.Type_ = some c3Set ∧
    findCondition (replaceCondition 9 [c3Set] c3New) c3New.Type_ =
      some { c3New with LastTransitionTime :=
        if c3Set.Status = c3New.Status ∧ c3Set.LastTransitionTime ≠ 0 then
          c3Set.LastTransitionTime
        else 9 } :=
  ⟨by decide, C3_lastTransitionTime 9 [c3Set] c3New c3Set (by decide)⟩

/-- C7: applying replaceCondition twice with the same condition value is
the same as applying it once — the second application preserves the
timestamp stamped by the first — given that the stamped current time is
non-zero (time.Now() never is the zero time). -/
theorem C7_upsertCondition_idem (now now2 : Nat) (conds : List Condition)
    (newC : Condition) (h : now ≠ 0) :
    replaceCondition now2 (replaceCondition now conds newC) newC =
      replaceCondition now conds newC :=
  replaceCondition_idem now now2 conds newC h

/-- C7 witness: stamping at time 3, a second application at time 8
changes nothing on a concrete two-condition list. -/
theorem C7_witness :
    (3 : Nat) ≠ 0 ∧
    replaceCondition 8 (replaceCondition 3 [c3Prior, c3Set] c3New) c3New =
      replaceCondition 3 [c3Prior, c3Set] c3New :=
  ⟨by decide, C7_upsertCondition_idem 3 8 [c3Prior, c3Set] c3New (by decide)⟩

/-- C9 counterexample: on an input list that already holds two
conditions of the incoming type (replaceCondition replaces only the
first match and returns), the result still holds two conditions of that
type, refuting "contains exactly one condition whose type equals the new
condition's type" for arbitrary input lists. -/
theorem C9_counterexample :
    (replaceCondition 5 [c3Prior, c3Set] c3New).countP
      (fun c => decide (c.Type_ = c3New.Type_)) = 2 := by
  decide

/-- C9 (amended): on an input list with at most one condition per type
(the data-model invariant), replaceCondition returns exactly one
condition of the new condition's type; conditions of other types are
unchanged and keep their position; the length grows by one exactly when
the type was absent. -/
theorem C9_replaceCondition_frame (now : Nat) (conds : List Condition) (newC : Condition)
    (h : uniqueTypes conds) :
    (replaceCondition now conds newC).countP
        (fun c => decide (c.Type_ = newC.Type_)) = 1 ∧
    (∀ (i : Nat) (c : Condition), conds[i]? = some c → c.Type_ ≠ newC.Type_ →
      (replaceCondition now conds newC)[i]? = some c) ∧
    (replaceCondition now conds newC).length =
      (if findCondition conds newC.Type_ = none then conds.length + 1
       else conds.length) :=
  ⟨replaceCondition_countP now conds newC h,
   fun i c hi hty => replaceCondition_getElem now conds newC i c hi hty,
   replaceCondition_length now conds newC⟩

/-- C9 witness: on the type-unique list [c9Other, c3Set], replacing the
"UpToDate" condition keeps exactly one "UpToDate" condition, keeps
c9Other at position 0, and keeps the length. -/
theorem C9_witness :
    uniqueTypes [c9Other, c3Set] ∧
    ((replaceCondition 5 [c9Other, c3Set] c3New).countP
        (fun c => decide (c.Type_ = c3New.Type_)) = 1 ∧
      (∀ (i : Nat) (c : Condition), [c9Other, c3Set][i]? = some c → c.Type_ ≠ c3New.Type_ →
        (replaceCondition 5 [c9Other, c3Set] c3New)[i]? = some c) ∧
      (replaceCondition 5 [c9Other, c3Set] c3New).length =
        (if findCondition [c9Other, c3Set] c3New.Type_ = none then
          ([c9Other, c3Set] : List Condition).length + 1
         else ([c9Other, c3Set] : List Condition).length)) :=
  ⟨by decide, C9_replaceCondition_frame 5 [c9Other, c3Set] c3New (by decide)⟩

/-- C6: on a key-unique input list, replaceStatus yields a key-unique
list again; the new entry is in the result, entries with other keys pass
through unchanged, and the length is preserved when the key was present
and grows by one when it was absent.  Placement is pinned positionally:
at every input index the result holds the new entry when that slot's
entry matched and the original entry otherwise (in-place replacement),
and the slot one past the input is empty when a key matched and holds
the new entry when none did (append at the end). -/
theorem C6_replaceStatus_key_unique (statuses : List WorkloadStatus)
    (u : WorkloadStatus) (h : uniqueWsKeys statuses) :
    uniqueWsKeys (replaceStatus statuses u) ∧
    u ∈ replaceStatus statuses u ∧
    (replaceStatus statuses u).filter (fun s => ! decide (wsKey s = wsKey u)) =
      statuses.filter (fun s => ! decide (wsKey s = wsKey u)) ∧
    (replaceStatus statuses u).length =
      (if statuses.any (fun s => wsKeyEq s u) then statuses.length
       else statuses.length + 1) ∧
    (∀ (i : Nat) (s : WorkloadStatus), statuses[i]? = some s →
      (replaceStatus statuses u)[i]? = some (if wsKeyEq s u then u else s)) ∧
    (replaceStatus statuses u)[statuses.length]? =
      (if statuses.any (fun s => wsKeyEq s u) then none else some u) := by
  refine ⟨replaceStatus_uniqueKeys statuses u h, mem_replaceStatus statuses u,
    replaceStatus_filter statuses u, ?_,
    fun i s hi => replaceStatus_getElem statuses u i s hi,
    replaceStatus_getElem_last statuses u⟩
  by_cases hany : statuses.any (fun s => wsKeyEq s u) = true
  · rw [if_pos hany]
    exact replaceStatus_length_present statuses u hany
  · rw [if_neg hany]
    have h' : ∀ s ∈ statuses, wsKeyEq s u = false := by
      intro s hs
      have := List.any_eq_false.mp (Bool.of_not_eq_true hany) s hs
      simpa using this
    rw [replaceStatus_no_match statuses u h']
    simp

/-- C6 witness: replacing ws1's entry in the key-unique list [ws1, ws2]
keeps key uniqueness, contains the update, keeps ws2, keeps the length,
holds the update in place at index 0 with ws2 still at index 1, and has
nothing at index 2. -/
theorem C6_witness :
    uniqueWsKeys [ws1, ws2] ∧
    (uniqueWsKeys (replaceStatus [ws1, ws2] ws1b) ∧
      ws1b ∈ replaceStatus [ws1, ws2] ws1b ∧
      (replaceStatus [ws1, ws2] ws1b).filter
          (fun s => ! decide (wsKey s = wsKey ws1b)) =
        ([ws1, ws2] : List WorkloadStatus).filter
          (fun s => ! decide (wsKey s = wsKey ws1b)) ∧
      (replaceStatus [ws1, ws2] ws1b).length =
        (if ([ws1, ws2] : List WorkloadStatus).any (fun s => wsKeyEq s ws1b) then
          ([ws1, ws2] : List WorkloadStatus).length
         else ([ws1, ws2] : List WorkloadStatus).length + 1) ∧
      (∀ (i : Nat) (s : WorkloadStatus),
        ([ws1, ws2] : List WorkloadStatus)[i]? = some s →
        (replaceStatus [ws1, ws2] ws1b)[i]? = some (if wsKeyEq s ws1b then ws1b else s)) ∧
      (replaceStatus [ws1, ws2] ws1b)[([ws1, ws2] : List WorkloadStatus).length]? =
        (if ([ws1, ws2] : List WorkloadStatus).any (fun s => wsKeyEq s ws1b) then none
         else some ws1b)) :=
  ⟨by decide, C6_replaceStatus_key_unique [ws1, ws2] ws1b (by decide)⟩

/-- A trace starting with a read has the mutating writes of its tail. -/
theorem mutWrites_cons_read (op : Op) (tr : List Op) (h : op.isMutating = false) :
    mutWrites (op :: tr) = mutWrites tr := by
  simp [mutWrites, List.countP_cons, h]

/-- C1: when the fetched resource has a non-empty deletion marker, the
invocation takes only the delete path: it issues no status patch (the
only way the create/update path sets UpToDate=true), and any update it
issues writes a resource without the finalizer and with the
resource-level condition list unchanged — so it neither adds the
finalizer nor sets UpToDate=true. -/
theorem C1_deletion_precedence (env : Env) (cache : RecentlyDeletedCache)
    (req : NamespacedName) (resource : AuthProxyWorkload)
    (hget : env.getResource = Except.ok resource)
    (hdel : resource.DeletionTimestamp ≠ 0) :
    (Reconcile env cache req).trace.all (deleteOnlyOp resource) = true := by
  rw [List.all_eq_true]
  intro op hop
  unfold Reconcile at hop
  rw [hget] at hop
  dsimp only at hop
  rw [if_pos hdel] at hop
  dsimp only at hop
  rcases List.mem_cons.mp hop with h | h
  · subst h; rfl
  · have hprops := doDelete_trace_ops env resource op h
    cases op with
    | getOp k => rfl
    | listOp ns => rfl
    | updateOp r2 =>
      have h2 := hprops.2 r2 rfl
      simp [deleteOnlyOp, h2.1, h2.2]
    | patchStatusOp a b => exact absurd rfl (hprops.1 a b)

/-- C1 witness: the concrete deleted resource under the all-success
environment. -/
theorem C1_witness :
    envDel.getResource = Except.ok resDel ∧
    resDel.DeletionTimestamp ≠ 0 ∧
    (Reconcile envDel cache0 reqDel).trace.all (deleteOnlyOp resDel) = true :=
  ⟨rfl, by decide, C1_deletion_precedence envDel cache0 reqDel resDel rfl (by decide)⟩

/-- C2: every reconcile invocation, on every path, performs at most one
mutating write (Update or status Patch) to the store. -/
theorem C2_single_write (env : Env) (cache : RecentlyDeletedCache)
    (req : NamespacedName) :
    mutWrites (Reconcile env cache req).trace ≤ 1 := by
  unfold Reconcile
  cases hg : env.getResource with
  | error e =>
    dsimp only
    by_cases hc : cache.get req = true
    · rw [if_pos hc]
      simp [mutWrites, Op.isMutating]
    · rw [if_neg hc]
      simp [mutWrites, Op.isMutating]
  | ok resource =>
    dsimp only
    by_cases hd : resource.DeletionTimestamp ≠ 0
    · rw [if_pos hd]
      dsimp only
      rw [mutWrites_cons_read (Op.getOp req) _ rfl]
      exact doDelete_mutWrites env resource
    · rw [if_neg hd]
      dsimp only
      rw [mutWrites_cons_read (Op.getOp req) _ rfl]
      exact doCreateUpdate_mutWrites env resource

/-- C4: for a resource with deletion marker set and finalizer present,
when the status recomputation and the update both succeed, the target
status is recomputed, the only mutating write is a single Update whose
resource no longer carries the finalizer, and the invocation ends with
no requeue and no error. -/
theorem C4_delete_removes_finalizer (env : Env) (cache : RecentlyDeletedCache)
    (req : NamespacedName) (resource : AuthProxyWorkload) (wls : List Workload)
    (hget : env.getResource = Except.ok resource)
    (hdel : resource.DeletionTimestamp ≠ 0)
    (hfin : ContainsFinalizer resource finalizerName = true)
    (hlist : (updateWorkloadStatus env resource).workloads = Except.ok wls)
    (hupd : env.updateOutcome = none) :
    (Reconcile env cache req).result = emptyResult ∧
    (Reconcile env cache req).err = none ∧
    (Reconcile env cache req).trace.filter Op.isMutating =
      [Op.updateOp (RemoveFinalizer (updateWorkloadStatus env resource).resource
        finalizerName)] ∧
    ContainsFinalizer (RemoveFinalizer (updateWorkloadStatus env resource).resource
      finalizerName) finalizerName = false := by
  have hframe := updateWorkloadStatus_frame env resource
  have hreads := updateWorkloadStatus_reads env resource
  unfold Reconcile
  rw [hget]
  dsimp only
  rw [if_pos hdel]
  dsimp only
  unfold doDelete
  rcases hu : updateWorkloadStatus env resource with ⟨w, res, tr⟩
  rw [hu] at hlist hframe hreads
  dsimp only at hlist hframe hreads ⊢
  subst hlist
  dsimp only
  have hfin2 : ContainsFinalizer res finalizerName = true := by
    rw [ContainsFinalizer] at hfin ⊢
    rw [hframe.2.2.2.2.1]
    exact hfin
  rw [if_pos hfin2, hupd]
  dsimp only
  refine ⟨rfl, rfl, ?_, ContainsFinalizer_RemoveFinalizer res finalizerName⟩
  have htr : tr.filter Op.isMutating = [] :=
    List.filter_eq_nil_iff.mpr (fun op hop => by simp [hreads op hop])
  rw [List.filter_cons, List.filter_append, htr]
  simp [Op.isMutating]

/-- C4 witness: the concrete deleted resource under the all-success
environment; the status recomputation finds the one matching workload. -/
theorem C4_witness :
    envDel.getResource = Except.ok resDel ∧
    resDel.DeletionTimestamp ≠ 0 ∧
    ContainsFinalizer resDel finalizerName = true ∧
    (updateWorkloadStatus envDel resDel).workloads = Except.ok [wlWeb] ∧
    envDel.updateOutcome = none ∧
    ((Reconcile envDel cache0 reqDel).result = emptyResult ∧
      (Reconcile envDel cache0 reqDel).err = none ∧
      (Reconcile envDel cache0 reqDel).trace.filter Op.isMutating =
        [Op.updateOp (RemoveFinalizer (updateWorkloadStatus envDel resDel).resource
          finalizerName)] ∧
      ContainsFinalizer (RemoveFinalizer (updateWorkloadStatus envDel resDel).resource
        finalizerName) finalizerName = false) :=
  ⟨rfl, by decide, by decide, rfl, rfl,
    C4_delete_removes_finalizer envDel cache0 reqDel resDel [wlWeb]
      rfl (by decide) (by decide) rfl rfl⟩

/-- C5: when the fetch returns not-found, the invocation ends quietly
(no error, no requeue) exactly when the key is recorded as recently
deleted; otherwise the fetch error is surfaced together with the
requeue-after-delay directive. -/
theorem C5_not_found (env : Env) (cache : RecentlyDeletedCache) (req : NamespacedName)
    (hget : env.getResource = Except.error StoreErr.notFound) :
    (Reconcile env cache req).result =
      (if cache.get req then emptyResult else requeueWithDelay) ∧
    (Reconcile env cache req).err =
      (if cache.get req then none else some (StoreErr.msg StoreErr.notFound)) := by
  unfold Reconcile
  rw [hget]
  dsimp only
  by_cases hc : cache.get req = true
  · rw [if_pos hc, if_pos hc, if_pos hc]
    exact ⟨rfl, rfl⟩
  · rw [if_neg hc, if_neg hc, if_neg hc]
    exact ⟨rfl, rfl⟩

/-- C5 witness: not-found fetch with the key recorded as deleted ends
with no requeue and no error. -/
theorem C5_witness :
    envNF.getResource = Except.error StoreErr.notFound ∧
    ((Reconcile envNF cacheDel reqDel).result =
        (if cacheDel.get reqDel then emptyResult else requeueWithDelay) ∧
      (Reconcile envNF cacheDel reqDel).err =
        (if cacheDel.get reqDel then none
         else some (StoreErr.msg StoreErr.notFound))) :=
  ⟨rfl, C5_not_found envNF cacheDel reqDel rfl⟩

/-- C8: a name-based lookup (non-empty explicit name) whose point Get
returns not-found yields an empty target list and no error. -/
theorem C8_loadByName_not_found (env : Env) (sel : WorkloadSelectorSpec) (ns : String)
    (hname : sel.Name ≠ "")
    (hkind : env.workloadForKind = Except.ok ())
    (hnf : env.getWorkload = Except.error StoreErr.notFound) :
    (listWorkloads env sel ns).workloads = Except.ok [] := by
  unfold listWorkloads
  rw [if_pos hname]
  unfold loadByName
  rw [hkind, hnf]

/-- C8 witness: looking up the non-existent named workload returns the
empty list with no error. -/
theorem C8_witness :
    selName.Name ≠ "" ∧
    envNFW.workloadForKind = Except.ok () ∧
    envNFW.getWorkload = Except.error StoreErr.notFound ∧
    (listWorkloads envNFW selName "default").workloads = Except.ok [] :=
  ⟨by decide, rfl, rfl,
    C8_loadByName_not_found envNFW selName "default" (by decide) rfl rfl⟩

/-- C10: updateWorkloadStatus issues only read operations (point Get or
List) to the store — never an Update or a status Patch — and mutates
only the in-memory working copy's per-workload status list, leaving its
metadata, spec and resource-level conditions unchanged. -/
theorem C10_updateWorkloadStatus_readonly (env : Env) (resource : AuthProxyWorkload) :
    (updateWorkloadStatus env resource).trace.all (fun op => ! op.isMutating) = true ∧
    ((updateWorkloadStatus env resource).resource.Namespace = resource.Namespace ∧
      (updateWorkloadStatus env resource).resource.Name = resource.Name ∧
      (updateWorkloadStatus env resource).resource.Generation = resource.Generation ∧
      (updateWorkloadStatus env resource).resource.DeletionTimestamp =
        resource.DeletionTimestamp ∧
      (updateWorkloadStatus env resource).resource.Finalizers = resource.Finalizers ∧
      (updateWorkloadStatus env resource).resource.SpecWorkload = resource.SpecWorkload ∧
      (updateWorkloadStatus env resource).resource.Status.Conditions =
        resource.Status.Conditions) := by
  refine ⟨?_, updateWorkloadStatus_frame env resource⟩
  rw [List.all_eq_true]
  intro op hop
  simp [updateWorkloadStatus_reads env resource op hop]

end controller
